import Mathlib

/-!
Verification of the URL shortener service (`src/app/main.py`) against its
natural-language specification.

The database table `url_map` is modelled as a list of rows in insertion
order (the `SERIAL` primary key orders rows by insertion).  Randomness is
injected: `random.choice` over the 62-symbol alphabet becomes a function
`Nat → Fin 62` (one per generation attempt), so `generate_short_url` is a
pure function of the injected choices.  The unbounded `while True` retry
loop of `create_short_url` is modelled with explicit fuel: a `none` result
means the loop has not terminated within the given number of attempts.
The gap between the existence check and the `INSERT` (where a concurrent
request may commit a row) is modelled by an interference function applied
to the store between the two steps; `id` gives the sequential semantics.
Failed requests return the store unchanged, mirroring the handlers which
raise `HTTPException` before performing any write.
-/

/-- Row of the `url_map` table (`id SERIAL` is implicit in list position). -/
structure Mapping where
  short_url : String
  original_url : String
  created_at : Nat
  visits : Nat
  is_active : Bool
deriving DecidableEq

/-- The `url_map` table: rows in insertion order. -/
abbrev Store := List Mapping

/-- Python `string.ascii_letters + string.digits`: the 62-symbol alphabet
used by `generate_short_url`. -/
def chars : List Char :=
  ['a','b','c','d','e','f','g','h','i','j','k','l','m',
   'n','o','p','q','r','s','t','u','v','w','x','y','z',
   'A','B','C','D','E','F','G','H','I','J','K','L','M',
   'N','O','P','Q','R','S','T','U','V','W','X','Y','Z',
   '0','1','2','3','4','5','6','7','8','9']

/-- Embedding of `generate_short_url`: join `length` independent choices
from `chars` (`random.choice` is the injected `choice`). -/
def generate_short_url (choice : Nat → Fin 62) (length : Nat) : String :=
  String.mk ((List.range length).map fun i => chars.getD (choice i).val 'a')

/-- Errors surfaced by the handlers.  `codeAlreadyInUse` is the HTTP 400 of
the custom-path conflict, `notFound` the HTTP 404, and `storageError` an
unhandled database exception escaping the handler (HTTP 500). -/
inductive Err where
  | codeAlreadyInUse
  | notFound
  | storageError
deriving DecidableEq

/-- Database-level errors raised by the store itself. -/
inductive DBErr where
  | uniqueViolation
deriving DecidableEq

/-- Embedding of `conn.fetchrow("SELECT * FROM url_map WHERE short_url = $1")`:
first row whose `short_url` matches. -/
def fetchrow (s : Store) (c : String) : Option Mapping :=
  s.find? fun m => m.short_url == c

/-- Embedding of the `INSERT` guarded by the `UNIQUE` constraint on
`short_url`: the row is appended unless its code is already present. -/
def insertUnique (s : Store) (m : Mapping) : Except DBErr Store :=
  if (fetchrow s m.short_url).isSome then .error .uniqueViolation
  else .ok (s ++ [m])

/-- The insert step of `create_short_url`, after a code has been chosen.
`interf` is the interference applied to the store between the existence
check and the `INSERT`.  The handler has no `try/except` around the
`INSERT`, so a constraint violation escapes as an unhandled exception,
modelled as `storageError` with the store left as the insert step saw it. -/
def finishInsert (interf : Store → Store) (s : Store) (c url : String) (t : Nat) :
    Except Err Mapping × Store :=
  let row : Mapping :=
    { short_url := c, original_url := url, created_at := t, visits := 0, is_active := true }
  match insertUnique (interf s) row with
  | .ok s' => (.ok row, s')
  | .error _ => (.error .storageError, interf s)

/-- The `while True` generate-and-check loop of `create_short_url`, with
explicit fuel.  `i` indexes the attempt (selecting the injected choices),
and `none` means the loop is still running after `fuel` attempts. -/
def pickFree (rnds : Nat → Nat → Fin 62) (s : Store) : Nat → Nat → Option String
  | _, 0 => none
  | i, fuel + 1 =>
    let c := generate_short_url (rnds i) 6
    if (fetchrow s c).isSome then pickFree rnds s (i + 1) fuel else some c

/-- The random-code path of `create_short_url`: loop until a free candidate
is found, then insert it. -/
def randomCreate (rnds : Nat → Nat → Fin 62) (fuel : Nat) (interf : Store → Store)
    (s : Store) (url : String) (t : Nat) : Option (Except Err Mapping × Store) :=
  match pickFree rnds s 0 fuel with
  | none => none
  | some c => some (finishInsert interf s c url t)

/-- Embedding of the `POST /shorten` handler `create_short_url`.  Python
truthiness of `url_data.custom_path` means `None` and `""` both take the
random path.  A `none` result is divergence of the retry loop. -/
def create_short_url (rnds : Nat → Nat → Fin 62) (fuel : Nat) (interf : Store → Store)
    (s : Store) (url : String) (t : Nat) (custom_path : Option String) :
    Option (Except Err Mapping × Store) :=
  match custom_path with
  | some c =>
    if c = "" then randomCreate rnds fuel interf s url t
    else
      match fetchrow s c with
      | some _ => some (.error .codeAlreadyInUse, s)
      | none => some (finishInsert interf s c url t)
  | none => randomCreate rnds fuel interf s url t

/-- Embedding of `UPDATE url_map SET visits = visits + 1 WHERE short_url = $1`:
a relative increment applied to every row matching the code. -/
def bumpVisits (s : Store) (c : String) : Store :=
  s.map fun m => if m.short_url == c then { m with visits := m.visits + 1 } else m

/-- Embedding of the `GET /\x7bshort_url\x7d` handler `redirect_to_url`:
absent or inactive rows yield 404 before any write; otherwise the visit
counter is incremented and the original URL returned. -/
def redirect_to_url (s : Store) (c : String) : Except Err String × Store :=
  match fetchrow s c with
  | none => (.error .notFound, s)
  | some m =>
    if m.is_active then (.ok m.original_url, bumpVisits s c)
    else (.error .notFound, s)

/-- Embedding of `UPDATE url_map SET is_active = FALSE WHERE short_url = $1`. -/
def setInactive (s : Store) (c : String) : Store :=
  s.map fun m => if m.short_url == c then { m with is_active := false } else m

/-- Embedding of the `DELETE /\x7bshort_url\x7d` handler `deactivate_url`:
404 when the code is absent, otherwise the row is deactivated (with no
check of its current `is_active` value) and the updated row returned. -/
def deactivate_url (s : Store) (c : String) : Except Err Mapping × Store :=
  match fetchrow s c with
  | none => (.error .notFound, s)
  | some m => (.ok { m with is_active := false }, setInactive s c)

/-- Response shape of the `GET /stats/` handler. -/
structure URLStats where
  urls : List Mapping
  total_urls : Nat
  total_visits : Nat
deriving DecidableEq

/-- Semantics of `SELECT * FROM url_map ORDER BY created_at DESC`: the
database may return any permutation of the table that is non-increasing in
`created_at`.  The query names no secondary sort key and Postgres does not
sort stably, so the relative order of rows with equal `created_at` is
unspecified: every such permutation is an admissible result. -/
abbrev OrderByCreatedDesc (s p : Store) : Prop :=
  List.Perm p s ∧ p.Pairwise fun a b => b.created_at ≤ a.created_at

/-- Embedding of the `GET /stats/` handler `get_stats`, parameterized by the
row order `p` the database chose for the `ORDER BY` query (any ordering
admitted by `OrderByCreatedDesc`): page of rows via `OFFSET skip LIMIT
limit`, `COUNT(*)`, and `SUM(visits)` (`NULL` on an empty table is
coalesced to 0, matching the `Nat` sum which is 0 on the empty list).  The
handler performs no write. -/
def get_stats (p : Store) (s : Store) (skip limit : Nat) : URLStats :=
  { urls := (p.drop skip).take limit
    total_urls := s.length
    total_visits := (s.map fun m => m.visits).sum }

/-- Well-formedness of a store state: codes are unique (the `UNIQUE`
constraint) and nonempty (every row is created either from a truthy
`custom_path` or from the length-6 generator).  Every state reachable by
the handlers from the empty table satisfies this. -/
abbrev WF (s : Store) : Prop :=
  ((s.map fun m => m.short_url).Nodup) ∧ ∀ m ∈ s, m.short_url ≠ ""

/-- One request processed by the service, in the sequential semantics
(`interf = id`), restricted to the successful (store-changing) requests;
failed requests provably leave the store unchanged. -/
inductive Step : Store → Store → Prop where
  | create (rnds : Nat → Nat → Fin 62) (fuel : Nat) (url : String) (t : Nat)
      (custom : Option String) (m : Mapping) (s s' : Store) :
      create_short_url rnds fuel id s url t custom = some (.ok m, s') → Step s s'
  | redirect (c u : String) (s s' : Store) :
      redirect_to_url s c = (.ok u, s') → Step s s'
  | deactivate (c : String) (m : Mapping) (s s' : Store) :
      deactivate_url s c = (.ok m, s') → Step s s'

/-- Any finite sequence of requests. -/
abbrev Steps : Store → Store → Prop :=
  Relation.ReflTransGen Step

/-- The code `c` is occupied by a deactivated row whose visit counter is
frozen at `v`. -/
def DeadAt (c : String) (v : Nat) (s : Store) : Prop :=
  ∃ m, fetchrow s c = some m ∧ m.is_active = false ∧ m.visits = v

/-! ### Facts about `fetchrow` -/

theorem fetchrow_eq_none_iff {s : Store} {c : String} :
    fetchrow s c = none ↔ ∀ m ∈ s, m.short_url ≠ c := by
  simp [fetchrow, List.find?_eq_none]

theorem fetchrow_mem {s : Store} {c : String} {m : Mapping}
    (h : fetchrow s c = some m) : m ∈ s ∧ m.short_url = c := by
  refine ⟨List.mem_of_find?_eq_some h, ?_⟩
  have hp := List.find?_some h
  simpa using hp

theorem fetchrow_isSome_of_mem {s : Store} {c : String} {m : Mapping}
    (hm : m ∈ s) (hc : m.short_url = c) : ∃ m', fetchrow s c = some m' := by
  rw [← Option.isSome_iff_exists, fetchrow, List.find?_isSome]
  exact ⟨m, hm, by simp [hc]⟩

theorem fetchrow_append {s l : Store} {c : String} :
    fetchrow (s ++ l) c = (fetchrow s c).or (fetchrow l c) := by
  simp [fetchrow]

theorem fetchrow_map {s : Store} {c : String} {f : Mapping → Mapping}
    (hf : ∀ m, (f m).short_url = m.short_url) :
    fetchrow (s.map f) c = (fetchrow s c).map f := by
  rw [fetchrow, List.find?_map]
  have he : ((fun m : Mapping => m.short_url == c) ∘ f) =
      fun m : Mapping => m.short_url == c := by
    funext m
    simp [Function.comp, hf]
  rw [he]
  rfl

theorem map_eq_self_of_code {l : Store} {c : String} (g : Mapping → Mapping)
    (h : ∀ x ∈ l, x.short_url ≠ c) :
    (l.map fun x => if x.short_url == c then g x else x) = l := by
  induction l with
  | nil => rfl
  | cons a l ih =>
    have ha : ¬((a.short_url == c) = true) := by
      simp [h a (List.mem_cons_self a l)]
    rw [List.map_cons, if_neg ha, ih fun x hx => h x (List.mem_cons_of_mem a hx)]

theorem update_by_code {s : Store} {c : String} {m : Mapping} (g : Mapping → Mapping)
    (hnd : (s.map fun x => x.short_url).Nodup) (hm : fetchrow s c = some m) :
    ∃ as bs, s = as ++ m :: bs ∧
      (s.map fun x => if x.short_url == c then g x else x) = as ++ g m :: bs := by
  rw [fetchrow, List.find?_eq_some] at hm
  obtain ⟨hpm, as, bs, hs, has⟩ := hm
  have hmc : m.short_url = c := by simpa using hpm
  have hbs : ∀ x ∈ bs, x.short_url ≠ c := by
    intro x hx hxc
    rw [hs, List.map_append] at hnd
    have h2 := hnd.of_append_right
    rw [List.map_cons, List.nodup_cons] at h2
    exact h2.1 (by rw [hmc, ← hxc]; exact List.mem_map_of_mem _ hx)
  have has' : ∀ x ∈ as, x.short_url ≠ c := by
    intro x hx
    simpa using has x hx
  have hif : (if m.short_url == c then g m else m) = g m := by simp [hpm]
  refine ⟨as, bs, hs, ?_⟩
  rw [hs, List.map_append, List.map_cons, map_eq_self_of_code g has',
    map_eq_self_of_code g hbs, hif]

/-! ### Facts about the code generator -/

theorem chars_getD_mem : ∀ k : Fin 62, chars.getD k.val 'a' ∈ chars := by decide

theorem generate_toList (f : Nat → Fin 62) (n : Nat) :
    (generate_short_url f n).toList =
      (List.range n).map fun i => chars.getD (f i).val 'a' := rfl

theorem generate_length (f : Nat → Fin 62) : (generate_short_url f 6).length = 6 := by
  show ((List.range 6).map fun i => chars.getD (f i).val 'a').length = 6
  simp

theorem generate_mem_chars (f : Nat → Fin 62) :
    ∀ ch ∈ (generate_short_url f 6).toList, ch ∈ chars := by
  intro ch hch
  rw [generate_toList] at hch
  obtain ⟨i, _, rfl⟩ := List.mem_map.mp hch
  exact chars_getD_mem (f i)

theorem ne_empty_of_length_six {u : String} (h : u.length = 6) : u ≠ "" := by
  intro he
  rw [he] at h
  exact absurd h (by decide)

/-! ### Inversion lemmas for the handlers (sequential semantics) -/

theorem pickFree_some {rnds : Nat → Nat → Fin 62} {s : Store} {i fuel : Nat} {c : String}
    (h : pickFree rnds s i fuel = some c) :
    fetchrow s c = none ∧ ∃ j, c = generate_short_url (rnds j) 6 := by
  induction fuel generalizing i with
  | zero => simp [pickFree] at h
  | succ n ih =>
    simp only [pickFree] at h
    cases hfs : fetchrow s (generate_short_url (rnds i) 6) with
    | none =>
      rw [hfs] at h
      simp at h
      subst h
      exact ⟨hfs, i, rfl⟩
    | some x =>
      rw [hfs] at h
      simp at h
      exact ih h

theorem finishInsert_ok {s : Store} {c url : String} {t : Nat} {m : Mapping} {s' : Store}
    (h : finishInsert id s c url t = (.ok m, s')) :
    fetchrow s c = none ∧
      m = { short_url := c, original_url := url, created_at := t,
            visits := 0, is_active := true } ∧
      s' = s ++ [m] := by
  cases hfc : fetchrow s c with
  | some x => simp [finishInsert, insertUnique, hfc] at h
  | none =>
    simp [finishInsert, insertUnique, hfc] at h
    exact ⟨rfl, h.1.symm, by rw [← h.2, h.1]⟩

theorem randomCreate_ok {rnds : Nat → Nat → Fin 62} {fuel : Nat} {s : Store}
    {url : String} {t : Nat} {m : Mapping} {s' : Store}
    (h : randomCreate rnds fuel id s url t = some (.ok m, s')) :
    fetchrow s m.short_url = none ∧ s' = s ++ [m] ∧
      m.visits = 0 ∧ m.is_active = true ∧ m.original_url = url ∧ m.created_at = t ∧
      m.short_url.length = 6 ∧ ∀ ch ∈ m.short_url.toList, ch ∈ chars := by
  unfold randomCreate at h
  cases hp : pickFree rnds s 0 fuel with
  | none => rw [hp] at h; exact absurd h (by simp)
  | some c =>
    rw [hp] at h
    simp only [Option.some.injEq] at h
    obtain ⟨hfc, j, hgen⟩ := pickFree_some hp
    obtain ⟨hn, hm, hs'⟩ := finishInsert_ok h
    have hcode : m.short_url = c := by rw [hm]
    refine ⟨by rw [hcode]; exact hfc, hs', by rw [hm], by rw [hm], by rw [hm],
      by rw [hm], ?_, ?_⟩
    · rw [hcode, hgen]; exact generate_length (rnds j)
    · rw [hcode, hgen]; exact generate_mem_chars (rnds j)

theorem create_ok {rnds : Nat → Nat → Fin 62} {fuel : Nat} {s : Store} {url : String}
    {t : Nat} {custom : Option String} {m : Mapping} {s' : Store}
    (h : create_short_url rnds fuel id s url t custom = some (.ok m, s')) :
    fetchrow s m.short_url = none ∧ s' = s ++ [m] ∧
      m.visits = 0 ∧ m.is_active = true ∧ m.original_url = url ∧ m.created_at = t ∧
      m.short_url ≠ "" ∧
      ((custom = none ∨ custom = some "") →
        m.short_url.length = 6 ∧ ∀ ch ∈ m.short_url.toList, ch ∈ chars) := by
  match custom with
  | none =>
    simp only [create_short_url] at h
    obtain ⟨h1, h2, h3, h4, h5, h6, h7, h8⟩ := randomCreate_ok h
    exact ⟨h1, h2, h3, h4, h5, h6, ne_empty_of_length_six h7, fun _ => ⟨h7, h8⟩⟩
  | some c =>
    by_cases hc : c = ""
    · subst hc
      simp only [create_short_url, if_pos rfl] at h
      obtain ⟨h1, h2, h3, h4, h5, h6, h7, h8⟩ := randomCreate_ok h
      exact ⟨h1, h2, h3, h4, h5, h6, ne_empty_of_length_six h7, fun _ => ⟨h7, h8⟩⟩
    · simp only [create_short_url, if_neg hc] at h
      cases hfc : fetchrow s c with
      | some x => rw [hfc] at h; exact absurd h (by simp)
      | none =>
        rw [hfc] at h
        simp only [Option.some.injEq] at h
        obtain ⟨hn, hm, hs'⟩ := finishInsert_ok h
        have hcode : m.short_url = c := by rw [hm]
        refine ⟨by rw [hcode]; exact hfc, hs', by rw [hm], by rw [hm], by rw [hm],
          by rw [hm], by rw [hcode]; exact hc, ?_⟩
        rintro (h' | h')
        · exact absurd h' (by simp)
        · exact absurd (by injection h') hc

theorem redirect_ok {s : Store} {c u : String} {s' : Store}
    (h : redirect_to_url s c = (.ok u, s')) :
    ∃ m, fetchrow s c = some m ∧ m.is_active = true ∧ u = m.original_url ∧
      s' = bumpVisits s c := by
  cases hfc : fetchrow s c with
  | none => simp [redirect_to_url, hfc] at h
  | some m =>
    simp only [redirect_to_url, hfc] at h
    by_cases ha : m.is_active = true
    · rw [if_pos ha] at h
      simp only [Prod.mk.injEq, Except.ok.injEq] at h
      exact ⟨m, rfl, ha, h.1.symm, h.2.symm⟩
    · rw [if_neg ha] at h
      exact absurd h (by simp)

theorem redirect_err {s : Store} {c : String} {e : Err} {s₂ : Store}
    (h : redirect_to_url s c = (.error e, s₂)) : e = .notFound ∧ s₂ = s := by
  cases hfc : fetchrow s c with
  | none =>
    simp only [redirect_to_url, hfc, Prod.mk.injEq, Except.error.injEq] at h
    exact ⟨h.1.symm, h.2.symm⟩
  | some m =>
    simp only [redirect_to_url, hfc] at h
    by_cases ha : m.is_active = true
    · rw [if_pos ha] at h; exact absurd h (by simp)
    · rw [if_neg ha] at h
      simp only [Prod.mk.injEq, Except.error.injEq] at h
      exact ⟨h.1.symm, h.2.symm⟩

theorem deactivate_ok {s : Store} {c : String} {m' : Mapping} {s' : Store}
    (h : deactivate_url s c = (.ok m', s')) :
    ∃ m, fetchrow s c = some m ∧ m' = { m with is_active := false } ∧
      s' = setInactive s c := by
  cases hfc : fetchrow s c with
  | none => simp [deactivate_url, hfc] at h
  | some m =>
    simp only [deactivate_url, hfc, Prod.mk.injEq, Except.ok.injEq] at h
    exact ⟨m, rfl, h.1.symm, h.2.symm⟩

/-! ### Preservation of well-formedness and of deactivated rows -/

theorem WF_map {s : Store} {f : Mapping → Mapping}
    (hf : ∀ m, (f m).short_url = m.short_url) (h : WF s) : WF (s.map f) := by
  constructor
  · have he : ((s.map f).map fun x => x.short_url) = s.map fun x => x.short_url := by
      rw [List.map_map]
      exact List.map_congr_left fun x _ => hf x
    rw [he]
    exact h.1
  · intro m hm
    obtain ⟨x, hx, rfl⟩ := List.mem_map.mp hm
    rw [hf]
    exact h.2 x hx

theorem WF_append {s : Store} {m : Mapping} (h : WF s)
    (hfree : fetchrow s m.short_url = none) (hne : m.short_url ≠ "") :
    WF (s ++ [m]) := by
  constructor
  · rw [List.map_append, List.nodup_append]
    refine ⟨h.1, by simp, ?_⟩
    intro a ha hb
    simp only [List.map_cons, List.map_nil, List.mem_cons, List.not_mem_nil,
      or_false] at hb
    subst hb
    obtain ⟨x, hx, hxc⟩ := List.mem_map.mp ha
    exact fetchrow_eq_none_iff.mp hfree x hx hxc
  · intro x hx
    rcases List.mem_append.mp hx with hx | hx
    · exact h.2 x hx
    · simp only [List.mem_cons, List.not_mem_nil, or_false] at hx
      subst hx
      exact hne

theorem bump_preserves_code (c : String) :
    ∀ m : Mapping,
      ((if m.short_url == c then { m with visits := m.visits + 1 } else m) :
        Mapping).short_url = m.short_url := by
  intro m
  split <;> rfl

theorem inactive_preserves_code (c : String) :
    ∀ m : Mapping,
      ((if m.short_url == c then { m with is_active := false } else m) :
        Mapping).short_url = m.short_url := by
  intro m
  split <;> rfl

theorem WF_step {s s' : Store} (h : WF s) (hs : Step s s') : WF s' := by
  cases hs with
  | create rnds fuel url t custom m _ _ hc =>
    obtain ⟨h1, h2, _, _, _, _, h7, _⟩ := create_ok hc
    rw [h2]
    exact WF_append h h1 h7
  | redirect c u _ _ hr =>
    obtain ⟨m, _, _, _, h4⟩ := redirect_ok hr
    rw [h4]
    exact WF_map (bump_preserves_code c) h
  | deactivate c m _ _ hd =>
    obtain ⟨m0, _, _, h3⟩ := deactivate_ok hd
    rw [h3]
    exact WF_map (inactive_preserves_code c) h

theorem DeadAt_step {c : String} {v : Nat} {s s' : Store}
    (hD : DeadAt c v s) (hs : Step s s') : DeadAt c v s' := by
  obtain ⟨m, hm, hia, hv⟩ := hD
  have hmc : m.short_url = c := (fetchrow_mem hm).2
  cases hs with
  | create rnds fuel url t custom mn _ _ hc =>
    obtain ⟨h1, h2, _⟩ := create_ok hc
    refine ⟨m, ?_, hia, hv⟩
    rw [h2, fetchrow_append, hm]
    rfl
  | redirect d u _ _ hr =>
    obtain ⟨m2, hm2, ha2, _, h4⟩ := redirect_ok hr
    by_cases hdc : d = c
    · subst hdc
      rw [hm] at hm2
      injection hm2 with hm2
      rw [← hm2] at ha2
      rw [hia] at ha2
      exact absurd ha2 (by decide)
    · refine ⟨m, ?_, hia, hv⟩
      rw [h4]
      unfold bumpVisits
      rw [fetchrow_map (bump_preserves_code d), hm]
      have hne : ¬((m.short_url == d) = true) := by
        simp [hmc]
        exact fun hh => hdc hh.symm
      simp only [Option.map_some', if_neg hne]
  | deactivate d m2 _ _ hd =>
    obtain ⟨m0, hm0, hmm, h3⟩ := deactivate_ok hd
    refine ⟨if m.short_url == d then { m with is_active := false } else m, ?_, ?_, ?_⟩
    · rw [h3]
      unfold setInactive
      rw [fetchrow_map (inactive_preserves_code d), hm]
      rfl
    · split
      · rfl
      · exact hia
    · split
      · exact hv
      · exact hv

theorem DeadAt_steps {c : String} {v : Nat} {s s' : Store}
    (hD : DeadAt c v s) (hs : Steps s s') : DeadAt c v s' := by
  induction hs with
  | refl => exact hD
  | tail _ h ih => exact DeadAt_step ih h

theorem redirect_of_dead {c : String} {v : Nat} {s : Store} (hD : DeadAt c v s) :
    redirect_to_url s c = (.error .notFound, s) := by
  obtain ⟨m, hm, hia, _⟩ := hD
  simp only [redirect_to_url, hm]
  rw [if_neg]
  simp [hia]

/-! ### The claims -/

/-- C1: creating with a `custom_code` equal to the code of any existing
Mapping (active or inactive) fails with `codeAlreadyInUse` and performs no
mutation — the resulting store is the input store, so no row is created
and the existing Mapping is unchanged. -/
theorem create_custom_conflict_rejected (s : Store) (X : String) (mx : Mapping)
    (hwf : WF s) (hmem : mx ∈ s) (hcode : mx.short_url = X)
    (rnds : Nat → Nat → Fin 62) (fuel : Nat) (url : String) (t : Nat) :
    create_short_url rnds fuel id s url t (some X) =
      some (.error .codeAlreadyInUse, s) := by
  have hX : X ≠ "" := hcode ▸ hwf.2 mx hmem
  obtain ⟨m', hm'⟩ := fetchrow_isSome_of_mem hmem hcode
  simp [create_short_url, hX, hm']

/-- Witness for C1 at a concrete store holding an inactive row. -/
theorem create_custom_conflict_rejected_witness :
    create_short_url (fun _ _ => 0) 3 id [⟨"promo1", "http://a", 0, 0, false⟩]
      "http://b" 5 (some "promo1") =
      some (.error .codeAlreadyInUse, [⟨"promo1", "http://a", 0, 0, false⟩]) :=
  create_custom_conflict_rejected _ "promo1" ⟨"promo1", "http://a", 0, 0, false⟩
    (by decide) (by decide) rfl _ 3 "http://b" 5

/-- C2 (refuting the claimed retry budget): the random-code path has no
bounded retry budget.  Against a store occupying the candidate the injected
generator keeps producing, the `while True` loop is still running after
every finite number of attempts — it never returns any outcome, in
particular no `ExhaustedRetries`-style error (no such error exists in the
code, as the `Err` type of the embedding records). -/
theorem create_random_loops_forever (fuel : Nat) :
    create_short_url (fun _ _ => 0) fuel id [⟨"aaaaaa", "http://a", 0, 0, true⟩]
      "http://b" 1 none = none := by
  have key : ∀ f i,
      pickFree (fun _ _ => 0) [⟨"aaaaaa", "http://a", 0, 0, true⟩] i f = none := by
    intro f
    induction f with
    | zero => intro i; rfl
    | succ n ih =>
      intro i
      simp only [pickFree]
      rw [if_pos (by decide)]
      exact ih (i + 1)
  simp [create_short_url, randomCreate, key fuel 0]

/-- C3 (refuting the claimed collision handling): when a concurrent insert
of the same code lands between the existence check and the `INSERT`, the
handler has no handling for the store's uniqueness violation — the custom
path surfaces an unhandled storage error (HTTP 500) rather than
`codeAlreadyInUse`, and no retry happens. -/
theorem create_race_unhandled :
    create_short_url (fun _ _ => 0) 3
      (fun s => s ++ [⟨"promo1", "http://other", 0, 0, true⟩]) [] "http://mine" 1
      (some "promo1") =
      some (.error .storageError, [⟨"promo1", "http://other", 0, 0, true⟩]) := rfl

/-- C4: resolving an active code returns its `original_url` and rewrites the
store with exactly that row's `visits` incremented by one (a relative
update — all other rows are literally unchanged); every failed resolve
leaves the store, hence every row's `visits`, unchanged. -/
theorem redirect_counts_exactly_once (s : Store) (c : String) (m : Mapping)
    (hwf : WF s) (hm : fetchrow s c = some m) (ha : m.is_active = true) :
    (∃ as bs, s = as ++ m :: bs ∧
        redirect_to_url s c =
          (.ok m.original_url, as ++ { m with visits := m.visits + 1 } :: bs)) ∧
    ∀ c' e s₂, redirect_to_url s c' = (.error e, s₂) → s₂ = s := by
  constructor
  · obtain ⟨as, bs, hs, hmap⟩ :=
      update_by_code (fun x => { x with visits := x.visits + 1 }) hwf.1 hm
    refine ⟨as, bs, hs, ?_⟩
    simp only [redirect_to_url, hm]
    rw [if_pos ha]
    unfold bumpVisits
    rw [hmap]
  · intro c' e s₂ h
    exact (redirect_err h).2

/-- Witness for C4 at a one-row store. -/
theorem redirect_counts_exactly_once_witness :
    (∃ as bs, ([⟨"ab", "u", 0, 4, true⟩] : Store) =
          as ++ (⟨"ab", "u", 0, 4, true⟩ : Mapping) :: bs ∧
        redirect_to_url [⟨"ab", "u", 0, 4, true⟩] "ab" =
          (.ok "u", as ++ (⟨"ab", "u", 0, 5, true⟩ : Mapping) :: bs)) ∧
    ∀ c' e s₂, redirect_to_url [⟨"ab", "u", 0, 4, true⟩] c' = (.error e, s₂) →
      s₂ = [⟨"ab", "u", 0, 4, true⟩] :=
  redirect_counts_exactly_once _ "ab" ⟨"ab", "u", 0, 4, true⟩ (by decide) rfl rfl

/-- C5: a resolve fails exactly when the code is absent or its row is
inactive, and both failure causes produce the identical outcome — the same
`notFound` error with the store untouched — so a deactivated code is
indistinguishable from a never-existing one to the caller. -/
theorem redirect_notfound_iff (s : Store) (c : String) :
    ((redirect_to_url s c).1 = .error .notFound ↔
      fetchrow s c = none ∨ ∃ m, fetchrow s c = some m ∧ m.is_active = false) ∧
    ∀ e s₂, redirect_to_url s c = (.error e, s₂) → e = .notFound ∧ s₂ = s := by
  constructor
  · cases hfc : fetchrow s c with
    | none => simp [redirect_to_url, hfc]
    | some m =>
      by_cases ha : m.is_active = true
      · simp [redirect_to_url, hfc, ha]
      · simp [redirect_to_url, hfc, ha]
  · intro e s₂ h
    exact redirect_err h

/-- Witness for C5 at a concrete store and code. -/
theorem redirect_notfound_iff_witness :
    ((redirect_to_url ([] : Store) "zz").1 = .error .notFound ↔
      fetchrow ([] : Store) "zz" = none ∨
        ∃ m, fetchrow ([] : Store) "zz" = some m ∧ m.is_active = false) ∧
    ∀ e s₂, redirect_to_url ([] : Store) "zz" = (.error e, s₂) →
      e = .notFound ∧ s₂ = ([] : Store) :=
  redirect_notfound_iff [] "zz"

/-- C6: every Mapping returned by a successful create has `visits = 0` and
`is_active = true`, and on the random path (no custom code, where Python
truthiness also sends `""` to the random path) its code has exactly 6
characters, each from the 62-symbol alphabet `chars`. -/
theorem create_result_shape (rnds : Nat → Nat → Fin 62) (fuel : Nat) (s : Store)
    (url : String) (t : Nat) (custom : Option String) (m : Mapping) (s' : Store)
    (h : create_short_url rnds fuel id s url t custom = some (.ok m, s')) :
    m.visits = 0 ∧ m.is_active = true ∧
      ((custom = none ∨ custom = some "") →
        m.short_url.length = 6 ∧ ∀ ch ∈ m.short_url.toList, ch ∈ chars) := by
  obtain ⟨_, _, h3, h4, _, _, _, h8⟩ := create_ok h
  exact ⟨h3, h4, h8⟩

/-- Witness for C6 on the random path of a concrete create. -/
theorem create_result_shape_witness :
    (⟨"aaaaaa", "u", 3, 0, true⟩ : Mapping).visits = 0 ∧
      (⟨"aaaaaa", "u", 3, 0, true⟩ : Mapping).is_active = true ∧
      (((none : Option String) = none ∨ (none : Option String) = some "") →
        (⟨"aaaaaa", "u", 3, 0, true⟩ : Mapping).short_url.length = 6 ∧
          ∀ ch ∈ (⟨"aaaaaa", "u", 3, 0, true⟩ : Mapping).short_url.toList,
            ch ∈ chars) :=
  create_result_shape (fun _ _ => 0) 1 [] "u" 3 none ⟨"aaaaaa", "u", 3, 0, true⟩
    [⟨"aaaaaa", "u", 3, 0, true⟩] rfl

/-- C7: deactivation is sticky.  After a successful `Deactivate(c)`, at
every store reachable by any further sequence of requests, resolving `c`
fails with `notFound` (leaving the store unchanged) and the row for `c`
still holds its frozen visit count. -/
theorem deactivate_sticky (s : Store) (c : String) (m' : Mapping) (s' : Store)
    (hd : deactivate_url s c = (.ok m', s'))
    (s'' : Store) (hs : Steps s' s'') :
    redirect_to_url s'' c = (.error .notFound, s'') ∧
      ∃ m'', fetchrow s'' c = some m'' ∧ m''.is_active = false ∧
        m''.visits = m'.visits := by
  obtain ⟨m, hm, hmm, hset⟩ := deactivate_ok hd
  have hmc : m.short_url = c := (fetchrow_mem hm).2
  have hD : DeadAt c m'.visits s' := by
    refine ⟨{ m with is_active := false }, ?_, rfl, by rw [hmm]⟩
    rw [hset]
    unfold setInactive
    rw [fetchrow_map (inactive_preserves_code c), hm]
    simp [hmc]
  have hD'' := DeadAt_steps hD hs
  exact ⟨redirect_of_dead hD'', hD''⟩

/-- Witness for C7: deactivate a row and resolve it again immediately. -/
theorem deactivate_sticky_witness :
    redirect_to_url [⟨"ab", "u", 0, 4, false⟩] "ab" =
        (.error .notFound, [⟨"ab", "u", 0, 4, false⟩]) ∧
      ∃ m'', fetchrow [⟨"ab", "u", 0, 4, false⟩] "ab" = some m'' ∧
        m''.is_active = false ∧
        m''.visits = (⟨"ab", "u", 0, 4, false⟩ : Mapping).visits :=
  deactivate_sticky [⟨"ab", "u", 0, 4, true⟩] "ab" ⟨"ab", "u", 0, 4, false⟩
    [⟨"ab", "u", 0, 4, false⟩] rfl [⟨"ab", "u", 0, 4, false⟩]
    Relation.ReflTransGen.refl

/-- C8 counterexample: two rows created at the same timestamp may be
returned by the database in reversed insertion order — the reversed list is
an admissible result of `ORDER BY created_at DESC` — and then the page
`get_stats` returns does not break the tie by insertion order. -/
theorem get_stats_tie_order_unspecified :
    OrderByCreatedDesc
      [⟨"a1", "u1", 5, 0, true⟩, ⟨"a2", "u2", 5, 0, true⟩]
      [⟨"a2", "u2", 5, 0, true⟩, ⟨"a1", "u1", 5, 0, true⟩] ∧
    (get_stats [⟨"a2", "u2", 5, 0, true⟩, ⟨"a1", "u1", 5, 0, true⟩]
        [⟨"a1", "u1", 5, 0, true⟩, ⟨"a2", "u2", 5, 0, true⟩] 0 10).urls ≠
      [⟨"a1", "u1", 5, 0, true⟩, ⟨"a2", "u2", 5, 0, true⟩] := by
  refine ⟨⟨?_, ?_⟩, ?_⟩ <;> decide

/-- C8 (amended): for every row order the database may choose for
`ORDER BY created_at DESC` — any `created_at`-descending permutation of the
table, the relative order of equal timestamps being unspecified —
`get_stats` returns the page `[skip, skip + limit)` of that ordering (so
the page is itself `created_at`-descending and drawn from the table),
together with the count of all rows and the sum of all visit counts (0 on
an empty table); being a pure function of the store, the handler modifies
nothing. -/
theorem get_stats_correct (s : Store) (skip limit : Nat) (p : Store)
    (h1 : 1 ≤ limit) (h2 : limit ≤ 100) (hp : OrderByCreatedDesc s p) :
    List.Perm p s ∧
    (get_stats p s skip limit).urls.Pairwise
      (fun a b => b.created_at ≤ a.created_at) ∧
    List.Sublist (get_stats p s skip limit).urls p ∧
    (get_stats p s skip limit).urls = (p.drop skip).take limit ∧
    (get_stats p s skip limit).total_urls = s.length ∧
    (get_stats p s skip limit).total_visits = ((s.map fun m => m.visits).sum) := by
  have hsub : List.Sublist ((p.drop skip).take limit) p :=
    (List.take_sublist _ _).trans (List.drop_sublist _ _)
  exact ⟨hp.1, List.Pairwise.sublist hsub hp.2, hsub, rfl, rfl, rfl⟩

/-- Witness for C8 at a two-row store with distinct timestamps. -/
theorem get_stats_correct_witness :
    List.Perm [(⟨"a2", "u2", 7, 5, true⟩ : Mapping), ⟨"a1", "u1", 3, 2, true⟩]
      [⟨"a1", "u1", 3, 2, true⟩, ⟨"a2", "u2", 7, 5, true⟩] ∧
    (get_stats [⟨"a2", "u2", 7, 5, true⟩, ⟨"a1", "u1", 3, 2, true⟩]
        [⟨"a1", "u1", 3, 2, true⟩, ⟨"a2", "u2", 7, 5, true⟩] 0 10).urls.Pairwise
      (fun a b => b.created_at ≤ a.created_at) ∧
    List.Sublist
      (get_stats [⟨"a2", "u2", 7, 5, true⟩, ⟨"a1", "u1", 3, 2, true⟩]
        [⟨"a1", "u1", 3, 2, true⟩, ⟨"a2", "u2", 7, 5, true⟩] 0 10).urls
      [⟨"a2", "u2", 7, 5, true⟩, ⟨"a1", "u1", 3, 2, true⟩] ∧
    (get_stats [⟨"a2", "u2", 7, 5, true⟩, ⟨"a1", "u1", 3, 2, true⟩]
        [⟨"a1", "u1", 3, 2, true⟩, ⟨"a2", "u2", 7, 5, true⟩] 0 10).urls =
      (([⟨"a2", "u2", 7, 5, true⟩, ⟨"a1", "u1", 3, 2, true⟩] : Store).drop 0).take 10 ∧
    (get_stats [⟨"a2", "u2", 7, 5, true⟩, ⟨"a1", "u1", 3, 2, true⟩]
        [⟨"a1", "u1", 3, 2, true⟩, ⟨"a2", "u2", 7, 5, true⟩] 0 10).total_urls =
      ([⟨"a1", "u1", 3, 2, true⟩, ⟨"a2", "u2", 7, 5, true⟩] : Store).length ∧
    (get_stats [⟨"a2", "u2", 7, 5, true⟩, ⟨"a1", "u1", 3, 2, true⟩]
        [⟨"a1", "u1", 3, 2, true⟩, ⟨"a2", "u2", 7, 5, true⟩] 0 10).total_visits =
      ((([⟨"a1", "u1", 3, 2, true⟩, ⟨"a2", "u2", 7, 5, true⟩] : Store).map
        fun m => m.visits).sum) :=
  get_stats_correct [⟨"a1", "u1", 3, 2, true⟩, ⟨"a2", "u2", 7, 5, true⟩] 0 10
    [⟨"a2", "u2", 7, 5, true⟩, ⟨"a1", "u1", 3, 2, true⟩]
    (by decide) (by decide) ⟨by decide, by decide⟩

/-- C9: `is_active` is monotone non-increasing across every request: no
operation turns an inactive row active again, and a row created by any
operation starts active. -/
theorem is_active_monotone (s s' : Store) (hstep : Step s s') (c : String) :
    (∀ m m', fetchrow s c = some m → fetchrow s' c = some m' →
      m.is_active = false → m'.is_active = false) ∧
    (fetchrow s c = none → ∀ m', fetchrow s' c = some m' → m'.is_active = true) := by
  cases hstep with
  | create rnds fuel url t custom mn _ _ hc =>
    obtain ⟨h1, h2, _, h4, _⟩ := create_ok hc
    constructor
    · intro m m' hm hm' hfalse
      rw [h2, fetchrow_append, hm] at hm'
      injection hm' with hm'
      rw [← hm']
      exact hfalse
    · intro hnone m' hm'
      rw [h2, fetchrow_append, hnone, Option.none_or] at hm'
      rcases fetchrow_mem hm' with ⟨hmem, _⟩
      simp only [List.mem_cons, List.not_mem_nil, or_false] at hmem
      rw [hmem]
      exact h4
  | redirect d u _ _ hr =>
    obtain ⟨m2, hm2, ha2, _, h4⟩ := redirect_ok hr
    subst h4
    constructor
    · intro m m' hm hm' hfalse
      unfold bumpVisits at hm'
      rw [fetchrow_map (bump_preserves_code d), hm] at hm'
      simp only [Option.map_some'] at hm'
      injection hm' with hm'
      rw [← hm']
      split
      · exact hfalse
      · exact hfalse
    · intro hnone m' hm'
      unfold bumpVisits at hm'
      rw [fetchrow_map (bump_preserves_code d), hnone] at hm'
      exact absurd hm' (by simp)
  | deactivate d m2 _ _ hd =>
    obtain ⟨m0, hm0, _, h3⟩ := deactivate_ok hd
    subst h3
    constructor
    · intro m m' hm hm' hfalse
      unfold setInactive at hm'
      rw [fetchrow_map (inactive_preserves_code d), hm] at hm'
      simp only [Option.map_some'] at hm'
      injection hm' with hm'
      rw [← hm']
      split
      · rfl
      · exact hfalse
    · intro hnone m' hm'
      unfold setInactive at hm'
      rw [fetchrow_map (inactive_preserves_code d), hnone] at hm'
      exact absurd hm' (by simp)

/-- Witness for C9 at a concrete deactivation step. -/
theorem is_active_monotone_witness :
    (∀ m m', fetchrow [⟨"ab", "u", 0, 4, true⟩] "ab" = some m →
      fetchrow [⟨"ab", "u", 0, 4, false⟩] "ab" = some m' →
      m.is_active = false → m'.is_active = false) ∧
    (fetchrow [⟨"ab", "u", 0, 4, true⟩] "ab" = none →
      ∀ m', fetchrow [⟨"ab", "u", 0, 4, false⟩] "ab" = some m' →
        m'.is_active = true) :=
  is_active_monotone _ _
    (Step.deactivate "ab" ⟨"ab", "u", 0, 4, false⟩ [⟨"ab", "u", 0, 4, true⟩]
      [⟨"ab", "u", 0, 4, false⟩] rfl) "ab"

/-- C10: deactivating an already-inactive code succeeds idempotently — the
handler returns the row itself (not an error) and the store is completely
unchanged, so `is_active` stays false and no other field changes. -/
theorem deactivate_idempotent (s : Store) (c : String) (m : Mapping)
    (hwf : WF s) (hm : fetchrow s c = some m) (hi : m.is_active = false) :
    deactivate_url s c = (.ok m, s) := by
  have hmm : { m with is_active := false } = m := by
    cases m
    simp only at hi
    rw [hi]
  simp only [deactivate_url, hm, hmm]
  obtain ⟨as, bs, hs, hmap⟩ :=
    update_by_code (fun x => { x with is_active := false }) hwf.1 hm
  unfold setInactive
  rw [hmap, hmm, ← hs]

/-- Witness for C10 at a one-row store whose row is already inactive. -/
theorem deactivate_idempotent_witness :
    deactivate_url [⟨"ab", "u", 0, 4, false⟩] "ab" =
      (.ok ⟨"ab", "u", 0, 4, false⟩, [⟨"ab", "u", 0, 4, false⟩]) :=
  deactivate_idempotent _ "ab" ⟨"ab", "u", 0, 4, false⟩ (by decide) rfl rfl
